import Mathlib

/-!
Shallow embedding of the `config` Go package (PacoDw/config): a viper-backed
configuration loader.  The algorithmic core verified here is

* `applyGlobalEnvSettings` (config.go): promotes every top-level scalar
  ("global") setting into each nested section mapping that does not already
  define a key of the same name;
* `mapstructureDecodeHook` (config.go): routes a structured field to the
  nested section mapping named by the lower-cased type name, passing the data
  through unchanged when no such section exists;
* `validateConfig` (config.go): aggregates all required-field violations into
  one "errors: ..." message;
* `Unmarshal` (config.go): decode, then validate, then apply defaults — the
  validation error short-circuits before defaults are applied.

Go's `map[string]interface{}` is modelled as an association list over an
abstract scalar payload type `α` (non-map `interface{}` values are opaque
scalars here); the first binding wins on lookup, mirroring a Go map whose keys
are unique.  External collaborators (mapstructure, go-playground/validator,
creasty/defaults) are modelled by the contract the spec assigns them: tag-keyed
field decoding, required-field checking on the decoded result, and filling of
still-missing fields with the declared default.
-/

namespace Config

/-- A dynamic configuration value, mirroring the Go `interface{}` values held
in viper's `AllSettings()` map: either a scalar payload (string / number /
bool, kept abstract as `α`) or a nested `map[string]interface{}`. -/
inductive Value (α : Type) : Type
  | scalar : α → Value α
  | map : List (String × Value α) → Value α

/-- A settings mapping `map[string]interface{}`, as an association list. -/
abbrev SMap (α : Type) := List (String × Value α)

/-- The `case map[string]interface{}` discrimination in the Go type switch. -/
def isMap {α : Type} : Value α → Bool
  | Value.map _ => true
  | Value.scalar _ => false

/-- Go map indexing `m[k]`: the first binding of `k` wins. -/
def lookup {α : Type} : SMap α → String → Option (Value α)
  | [], _ => none
  | p :: rest, k => if p.1 = k then some p.2 else lookup rest k

/-- The `_, ok := v[gKey]` presence test of the Go code. -/
def containsKey {α : Type} (m : SMap α) (k : String) : Bool :=
  (lookup m k).isSome

/-- First loop of `applyGlobalEnvSettings` (config.go lines 109-117): collect
every top-level entry whose value is not a nested mapping. -/
def getGlobals {α : Type} (m : SMap α) : SMap α :=
  m.filter (fun p => !isMap p.2)

/-- Inner loop of `applyGlobalEnvSettings` (config.go lines 123-127): for each
global `(gKey, gVal)`, if the section does not contain `gKey`, set
`section[gKey] = gVal` (a fresh key is appended to the association list). -/
def injectGlobals {α : Type} : SMap α → SMap α → SMap α
  | [], s => s
  | g :: gs, s => injectGlobals gs (if containsKey s g.1 then s else s ++ [g])

/-- The per-entry effect of the second loop's type switch (config.go lines
121-128): section mappings receive the globals, every other value is left
untouched. -/
def promoteEntry {α : Type} (globals : SMap α) : Value α → Value α
  | Value.map s => Value.map (injectGlobals globals s)
  | v => v

/-- `applyGlobalEnvSettings` (config.go lines 107-132): compute the global
entries, then mutate every top-level section mapping by injecting each global
key it does not already define.  The in-place Go mutation is modelled as a
value-level transformation of each top-level entry. -/
def applyGlobalEnvSettings {α : Type} (m : SMap α) : SMap α :=
  m.map (fun p => (p.1, promoteEntry (getGlobals m) p.2))

/-- Outcome of one invocation of the decode hook returned by
`mapstructureDecodeHook` (config.go lines 136-153) on a piece of data. -/
inductive HookResult (α : Type) : Type
  /-- The hook returned `data` unchanged (no section matched, or the data was
  not a map). -/
  | passthrough : Value α → HookResult α
  /-- The hook found a section mapping under the lower-cased target type name
  and routes it to a recursive decode of the structured field. -/
  | routed : SMap α → HookResult α
  /-- The unchecked type assertion `v.(map[string]interface{})` (config.go
  line 145) failed at run time: the matched key held a non-map value. -/
  | crash : HookResult α

/-- Go's `strings.ToLower` as used on type names (config.go line 139),
character by character; Go type names are ASCII identifiers, for which this
agrees with the full Unicode lowering. -/
def toLowerStr (s : String) : String :=
  String.mk (s.data.map Char.toLower)

/-- The decode hook built by `mapstructureDecodeHook` (config.go lines
136-153), applied to source data for a target type named `tName`: when the
data is a map, look up `strings.ToLower(t.Name())`; if absent, return the data
unchanged; if present, cast the value to a nested mapping — an unchecked
assertion that fails when the value is a scalar — and route it to a recursive
decode. -/
def mapstructureDecodeHook {α : Type} (tName : String) (data : Value α) :
    HookResult α :=
  match data with
  | Value.map m =>
    match lookup m (toLowerStr tName) with
    | none => HookResult.passthrough (Value.map m)
    | some (Value.map s) => HookResult.routed s
    | some (Value.scalar _) => HookResult.crash
  | d => HookResult.passthrough d

/-- The `ServerConfig`-shaped target of the §8 routing scenario: a structure
with string fields keyed `host` and `name`.  Decoded fields hold the raw
settings value, `none` when the key was absent. -/
structure ServerT (α : Type) : Type where
  host : Option (Value α)
  name : Option (Value α)

/-- The `AppConfig`-shaped target of the §8 routing scenario: a top-level
string field keyed `name` and a structured field of type `Server`. -/
structure AppT (α : Type) : Type where
  name : Option (Value α)
  server : ServerT α

/-- Field-tag decode of the `Server` structure from a settings mapping
(mapstructure collaborator contract: each field reads its tag key). -/
def decodeServer {α : Type} (m : SMap α) : ServerT α :=
  { host := lookup m "host", name := lookup m "name" }

/-- Decode of the `AppT` target from a settings mapping: the scalar field
reads its own key, and the structured `Server` field is routed through the
decode hook — decoded from the matched section mapping alone when one exists,
from the enclosing mapping when the hook passes the data through, and failing
when the hook's unchecked cast fails. -/
def decodeApp {α : Type} (m : SMap α) : Option (AppT α) :=
  match mapstructureDecodeHook "Server" (Value.map m) with
  | HookResult.routed s => some { name := lookup m "name", server := decodeServer s }
  | HookResult.passthrough _ => some { name := lookup m "name", server := decodeServer m }
  | HookResult.crash => none

/-- The `Unmarshal` pipeline (config.go lines 66-87) specialised to the `AppT`
target: promote the globals, then decode with the section-routing hook. -/
def UnmarshalApp {α : Type} (m : SMap α) : Option (AppT α) :=
  decodeApp (applyGlobalEnvSettings m)

/-- One field of a flat target structure: the Go struct field name (reported
by the validator), its `env` tag key, its `validate:"required"` marker, and
its `default` tag (already coerced to a settings value). -/
structure FieldSpec (α : Type) : Type where
  name : String
  key : String
  required : Bool
  defaultTag : Option (Value α)

/-- `decodeConfig` (config.go lines 90-104) for a flat target: each field is
populated from the settings value under its tag key (`none` when absent —
mapstructure zero-initialises untouched fields). -/
def decodeConfig {α : Type} (specs : List (FieldSpec α)) (settings : SMap α) :
    List (FieldSpec α × Option (Value α)) :=
  specs.map (fun f => (f, lookup settings f.key))

/-- The per-violation message of `validateConfig` (config.go line 162):
`fmt.Sprintf("validation error: field '%s' is %s", err.Field(), err.Tag())`. -/
def formatViolation (name rule : String) : String :=
  "validation error: field '" ++ name ++ "' is " ++ rule

/-- The violations the go-playground validator reports for a decoded flat
target: every field marked `required` whose decoded value is still missing,
as `(field name, rule tag)` pairs. -/
def requiredViolations {α : Type} (c : List (FieldSpec α × Option (Value α))) :
    List (String × String) :=
  (c.filter (fun p => p.1.required && p.2.isNone)).map (fun p => (p.1.name, "required"))

/-- Tail of `strings.Join`: separator before every element after the first. -/
def joinTail (sep : String) : List String → String
  | [] => ""
  | s :: rest => sep ++ s ++ joinTail sep rest

/-- Go's `strings.Join(elems, sep)` (used at config.go line 165). -/
def joinStrings (sep : String) : List String → String
  | [] => ""
  | s :: rest => s ++ joinTail sep rest

/-- `validateConfig` (config.go lines 157-169): `nil` when the validator
reports no violation, otherwise one aggregated error
`fmt.Errorf("errors: %s", strings.Join(errorMessages, ", "))`. -/
def validateConfig {α : Type} (c : List (FieldSpec α × Option (Value α))) :
    Option String :=
  if requiredViolations c = [] then none
  else some ("errors: " ++ joinStrings ", "
    ((requiredViolations c).map (fun v => formatViolation v.1 v.2)))

/-- `defaults.Set` (config.go line 86, creasty/defaults collaborator
contract): every field still at its zero value receives its `default` tag. -/
def applyDefaults {α : Type} (c : List (FieldSpec α × Option (Value α))) :
    List (FieldSpec α × Option (Value α)) :=
  c.map (fun p => match p.2 with
    | none => (p.1, p.1.defaultTag)
    | some v => (p.1, some v))

/-- `Unmarshal` (config.go lines 66-87) for a flat target: promote the
globals over all settings, decode the target, validate it, and only when
validation reports no violation apply the defaults.  A validation failure is
returned as `Except.error` and short-circuits before `applyDefaults`. -/
def Unmarshal {α : Type} (specs : List (FieldSpec α)) (m : SMap α) :
    Except String (List (FieldSpec α × Option (Value α))) :=
  match validateConfig (decodeConfig specs (applyGlobalEnvSettings m)) with
  | some e => Except.error e
  | none => Except.ok (applyDefaults (decodeConfig specs (applyGlobalEnvSettings m)))

theorem lookup_append_some {α : Type} {s : SMap α} {k : String} {v : Value α}
    (t : SMap α) (h : lookup s k = some v) : lookup (s ++ t) k = some v := by
  induction s with
  | nil => simp [lookup] at h
  | cons p rest ih =>
    rw [List.cons_append]
    simp only [lookup] at h ⊢
    by_cases hk : p.1 = k
    · simpa [hk] using h
    · rw [if_neg hk] at h ⊢
      exact ih h

theorem lookup_append_none {α : Type} {s : SMap α} {k : String}
    (t : SMap α) (h : lookup s k = none) : lookup (s ++ t) k = lookup t k := by
  induction s with
  | nil => simp
  | cons p rest ih =>
    simp only [lookup] at h
    by_cases hk : p.1 = k
    · rw [if_pos hk] at h
      exact absurd h (by simp)
    · rw [if_neg hk] at h
      rw [List.cons_append]
      simp only [lookup]
      rw [if_neg hk]
      exact ih h

theorem lookup_injectGlobals_of_some {α : Type} (g : SMap α) {s : SMap α}
    {k : String} {v : Value α} (h : lookup s k = some v) :
    lookup (injectGlobals g s) k = some v := by
  induction g generalizing s with
  | nil => simpa [injectGlobals] using h
  | cons p gs ih =>
    rw [injectGlobals]
    split
    · exact ih h
    · exact ih (lookup_append_some _ h)

theorem lookup_injectGlobals_of_absent {α : Type} (g : SMap α) (k : String)
    (v : Value α) :
    lookup g k = some v → ∀ (s : SMap α), lookup s k = none →
    lookup (injectGlobals g s) k = some v := by
  induction g with
  | nil => intro hg; simp [lookup] at hg
  | cons p gs ih =>
    intro hg s hs
    rw [injectGlobals]
    simp only [lookup] at hg
    by_cases hk : p.1 = k
    · rw [if_pos hk] at hg
      have hc : containsKey s p.1 = false := by
        simp [containsKey, hk, hs]
      rw [if_neg (by simp [hc])]
      apply lookup_injectGlobals_of_some
      rw [lookup_append_none _ hs]
      simp [lookup, hk, ← Option.some.inj hg]
    · rw [if_neg hk] at hg
      split
      · exact ih hg s hs
      · apply ih hg
        rw [lookup_append_none _ hs]
        simp [lookup, hk]

theorem lookup_isSome_of_mem {α : Type} {m : SMap α} {p : String × Value α}
    (h : p ∈ m) : (lookup m p.1).isSome = true := by
  induction m with
  | nil => cases h
  | cons q rest ih =>
    simp only [lookup]
    by_cases hk : q.1 = p.1
    · simp [hk]
    · rcases List.mem_cons.mp h with rfl | hmem
      · exact absurd rfl hk
      · rw [if_neg hk]
        exact ih hmem

theorem containsKey_injectGlobals {α : Type} (g : SMap α) (s : SMap α)
    (p : String × Value α) (hp : p ∈ g) :
    containsKey (injectGlobals g s) p.1 = true := by
  have h1 : (lookup g p.1).isSome = true := lookup_isSome_of_mem hp
  rcases Option.isSome_iff_exists.mp h1 with ⟨v, hv⟩
  cases hs : lookup s p.1 with
  | some w =>
    have h2 := lookup_injectGlobals_of_some g hs
    simp [containsKey, h2]
  | none =>
    have h2 := lookup_injectGlobals_of_absent g p.1 v hv s hs
    simp [containsKey, h2]

theorem injectGlobals_eq_self {α : Type} (g : SMap α) (s : SMap α)
    (h : ∀ p ∈ g, containsKey s p.1 = true) : injectGlobals g s = s := by
  induction g with
  | nil => rfl
  | cons p gs ih =>
    rw [injectGlobals, if_pos (h p (List.mem_cons_self p gs))]
    exact ih (fun q hq => h q (List.mem_cons_of_mem _ hq))

theorem injectGlobals_idem {α : Type} (g s : SMap α) :
    injectGlobals g (injectGlobals g s) = injectGlobals g s :=
  injectGlobals_eq_self g _ (fun p hp => containsKey_injectGlobals g s p hp)

theorem isMap_promoteEntry {α : Type} (g : SMap α) (v : Value α) :
    isMap (promoteEntry g v) = isMap v := by
  cases v <;> rfl

theorem promoteEntry_scalar {α : Type} (g : SMap α) (v : Value α)
    (h : isMap v = false) : promoteEntry g v = v := by
  cases v with
  | scalar a => rfl
  | map s => simp [isMap] at h

theorem promoteEntry_idem {α : Type} (g : SMap α) (v : Value α) :
    promoteEntry g (promoteEntry g v) = promoteEntry g v := by
  cases v with
  | scalar a => rfl
  | map s =>
    simp only [promoteEntry]
    rw [injectGlobals_idem]

theorem lookup_map_value {α : Type} (t : Value α → Value α) (m : SMap α)
    (k : String) :
    lookup (m.map (fun p => (p.1, t p.2))) k = (lookup m k).map t := by
  induction m with
  | nil => rfl
  | cons p rest ih =>
    simp only [List.map_cons, lookup]
    by_cases hk : p.1 = k
    · simp [hk]
    · simp only [hk, if_false]
      exact ih

theorem lookup_apply {α : Type} (m : SMap α) (k : String) :
    lookup (applyGlobalEnvSettings m) k =
      (lookup m k).map (promoteEntry (getGlobals m)) := by
  unfold applyGlobalEnvSettings
  exact lookup_map_value _ m k

theorem lookup_getGlobals {α : Type} (m : SMap α) (k : String) (v : Value α)
    (h : lookup m k = some v) (hv : isMap v = false) :
    lookup (getGlobals m) k = some v := by
  induction m with
  | nil => simp [lookup] at h
  | cons p rest ih =>
    simp only [lookup] at h
    unfold getGlobals at ih ⊢
    rw [List.filter_cons]
    by_cases hk : p.1 = k
    · rw [if_pos hk] at h
      have hp2 : p.2 = v := Option.some.inj h
      rw [if_pos (by simp [hp2, hv])]
      simp [lookup, hk, hp2]
    · rw [if_neg hk] at h
      split
      · simp only [lookup]
        rw [if_neg hk]
        exact ih h
      · exact ih h

theorem getGlobals_map_promote {α : Type} (g : SMap α) (m : SMap α) :
    getGlobals (m.map (fun p => (p.1, promoteEntry g p.2))) = getGlobals m := by
  induction m with
  | nil => rfl
  | cons p rest ih =>
    simp only [List.map_cons]
    unfold getGlobals at ih ⊢
    rw [List.filter_cons, List.filter_cons]
    cases hv : isMap p.2 with
    | true =>
      have h1 : isMap (promoteEntry g p.2) = true := by
        rw [isMap_promoteEntry, hv]
      simp [hv, h1, ih]
    | false =>
      have h1 : promoteEntry g p.2 = p.2 := promoteEntry_scalar g p.2 hv
      have h2 : isMap (promoteEntry g p.2) = false := by
        rw [isMap_promoteEntry, hv]
      simp [hv, h1, h2, ih]

theorem map_promote_idem {α : Type} (g : SMap α) (m : SMap α) :
    (m.map (fun p => (p.1, promoteEntry g p.2))).map
        (fun p => (p.1, promoteEntry g p.2))
      = m.map (fun p => (p.1, promoteEntry g p.2)) := by
  induction m with
  | nil => rfl
  | cons p rest ih =>
    simp only [List.map_cons, promoteEntry_idem, ih]

theorem map_fst_map_promote {α : Type} (g : SMap α) (m : SMap α) :
    (m.map (fun p => (p.1, promoteEntry g p.2))).map Prod.fst = m.map Prod.fst := by
  induction m with
  | nil => rfl
  | cons p rest ih =>
    simp only [List.map_cons, ih]

theorem formatViolation_decomp (n r : String) :
    formatViolation n r =
      "validation error: " ++ ("field '" ++ n ++ "' is " ++ r) := by
  unfold formatViolation
  conv_rhs => rw [← String.append_assoc, ← String.append_assoc, ← String.append_assoc]
  rfl

theorem joinTail_substring (sep a : String) (l : List String) (ha : a ∈ l) :
    ∃ pre post, joinTail sep l = pre ++ a ++ post := by
  induction l with
  | nil => cases ha
  | cons b rest ih =>
    rcases List.mem_cons.mp ha with rfl | hmem
    · exact ⟨sep, joinTail sep rest, rfl⟩
    · obtain ⟨pre, post, hpp⟩ := ih hmem
      refine ⟨sep ++ b ++ pre, post, ?_⟩
      show sep ++ b ++ joinTail sep rest = sep ++ b ++ pre ++ a ++ post
      rw [hpp]
      simp [String.append_assoc]

theorem joinStrings_substring (sep a : String) (l : List String) (ha : a ∈ l) :
    ∃ pre post, joinStrings sep l = pre ++ a ++ post := by
  cases l with
  | nil => cases ha
  | cons b rest =>
    rcases List.mem_cons.mp ha with rfl | hmem
    · refine ⟨"", joinTail sep rest, ?_⟩
      show a ++ joinTail sep rest = "" ++ a ++ joinTail sep rest
      rw [String.empty_append]
    · obtain ⟨pre, post, hpp⟩ := joinTail_substring sep a rest hmem
      refine ⟨b ++ pre, post, ?_⟩
      show b ++ joinTail sep rest = b ++ pre ++ a ++ post
      rw [hpp]
      simp [String.append_assoc]

/-- C1: Global injection — for every settings mapping with a top-level scalar
key `K = V` and a section `name` that does not define `K` before promotion,
after `applyGlobalEnvSettings` that section contains `K` with value `V`. -/
theorem global_injection {α : Type} (m : SMap α) (K name : String)
    (V : Value α) (s : SMap α)
    (hV : lookup m K = some V) (hscalar : isMap V = false)
    (hs : lookup m name = some (Value.map s))
    (habsent : lookup s K = none) :
    ∃ s', lookup (applyGlobalEnvSettings m) name = some (Value.map s') ∧
      lookup s' K = some V := by
  refine ⟨injectGlobals (getGlobals m) s, ?_, ?_⟩
  · rw [lookup_apply, hs]
    rfl
  · exact lookup_injectGlobals_of_absent (getGlobals m) K V
      (lookup_getGlobals m K V hV hscalar) s habsent

/-- C1 witness: a concrete mapping with global `k = 7` and an empty section
`sec`; after promotion `sec` contains `k = 7`. -/
theorem global_injection_witness :
    ∃ s', lookup (applyGlobalEnvSettings
        [("k", Value.scalar (7 : Nat)), ("sec", Value.map [])]) "sec"
      = some (Value.map s') ∧ lookup s' "k" = some (Value.scalar 7) :=
  global_injection _ "k" "sec" (Value.scalar 7) [] rfl rfl rfl rfl

/-- C2: Local precedence — a key `K` already present in a section before
promotion keeps its value after `applyGlobalEnvSettings`; a same-named global
never overwrites it. -/
theorem local_precedence {α : Type} (m : SMap α) (name K : String)
    (s : SMap α) (V2 : Value α)
    (hs : lookup m name = some (Value.map s))
    (hK : lookup s K = some V2) :
    ∃ s', lookup (applyGlobalEnvSettings m) name = some (Value.map s') ∧
      lookup s' K = some V2 := by
  refine ⟨injectGlobals (getGlobals m) s, ?_, ?_⟩
  · rw [lookup_apply, hs]
    rfl
  · exact lookup_injectGlobals_of_some _ hK

/-- C2 witness: the global `k = 2` does not overwrite the section-local
`k = 1`. -/
theorem local_precedence_witness :
    ∃ s', lookup (applyGlobalEnvSettings
        [("k", Value.scalar (2 : Nat)), ("sec", Value.map [("k", Value.scalar 1)])]) "sec"
      = some (Value.map s') ∧ lookup s' "k" = some (Value.scalar 1) :=
  local_precedence _ "sec" "k" [("k", Value.scalar 1)] (Value.scalar 1) rfl rfl

/-- C5: Idempotent promotion — applying `applyGlobalEnvSettings` twice
produces the same mapping as applying it once. -/
theorem applyGlobalEnvSettings_idem {α : Type} (m : SMap α) :
    applyGlobalEnvSettings (applyGlobalEnvSettings m) = applyGlobalEnvSettings m := by
  unfold applyGlobalEnvSettings
  rw [getGlobals_map_promote]
  exact map_promote_idem (getGlobals m) m

/-- C8: Promotion is one level deep — a nested sub-mapping held inside a
section is left untouched by `applyGlobalEnvSettings`, so a global key absent
from it stays absent (the globals are injected only at the top level of each
section). -/
theorem promotion_one_level {α : Type} (m : SMap α) (name k2 K : String)
    (s t : SMap α) (V : Value α)
    (hs : lookup m name = some (Value.map s))
    (hnest : lookup s k2 = some (Value.map t))
    (_hV : lookup m K = some V) (_hscalar : isMap V = false)
    (habsent : lookup t K = none) :
    ∃ s', lookup (applyGlobalEnvSettings m) name = some (Value.map s') ∧
      lookup s' k2 = some (Value.map t) ∧ lookup t K = none := by
  refine ⟨injectGlobals (getGlobals m) s, ?_, ?_, habsent⟩
  · rw [lookup_apply, hs]
    rfl
  · exact lookup_injectGlobals_of_some _ hnest

/-- C8 witness: global `g = 1`, section `sec` holding a nested empty mapping
`inner`; after promotion the nested mapping is unchanged and still lacks
`g`. -/
theorem promotion_one_level_witness :
    ∃ s', lookup (applyGlobalEnvSettings
        [("g", Value.scalar (1 : Nat)),
         ("sec", Value.map [("inner", Value.map [])])]) "sec"
      = some (Value.map s') ∧
      lookup s' "inner" = some (Value.map []) ∧
      lookup ([] : SMap Nat) "g" = none :=
  promotion_one_level _ "sec" "inner" "g" [("inner", Value.map [])] []
    (Value.scalar 1) rfl rfl rfl rfl rfl

/-- C9: Promotion frame property — `applyGlobalEnvSettings` keeps the
top-level key sequence unchanged, leaves every scalar-valued top-level entry
exactly as it was (in both directions: no scalar entry appears or changes),
and only extends section entries: every binding a section held before
promotion is still present with the same value afterwards. -/
theorem promote_frame {α : Type} (m : SMap α) :
    ((applyGlobalEnvSettings m).map Prod.fst = m.map Prod.fst) ∧
    (∀ k v, lookup m k = some v → isMap v = false →
      lookup (applyGlobalEnvSettings m) k = some v) ∧
    (∀ k v, lookup (applyGlobalEnvSettings m) k = some v → isMap v = false →
      lookup m k = some v) ∧
    (∀ k s, lookup m k = some (Value.map s) →
      ∃ s', lookup (applyGlobalEnvSettings m) k = some (Value.map s') ∧
        ∀ k2 w, lookup s k2 = some w → lookup s' k2 = some w) := by
  refine ⟨?_, ?_, ?_, ?_⟩
  · unfold applyGlobalEnvSettings
    exact map_fst_map_promote (getGlobals m) m
  · intro k v hv hscal
    rw [lookup_apply, hv]
    simp [promoteEntry_scalar _ _ hscal]
  · intro k v hv hscal
    rw [lookup_apply] at hv
    cases hm : lookup m k with
    | none =>
      rw [hm] at hv
      simp at hv
    | some w =>
      rw [hm] at hv
      have hw : promoteEntry (getGlobals m) w = v := by simpa using hv
      have hmw : isMap w = false := by
        rw [← isMap_promoteEntry (getGlobals m) w, hw]
        exact hscal
      rw [promoteEntry_scalar _ _ hmw] at hw
      exact congrArg some hw
  · intro k s hs
    refine ⟨injectGlobals (getGlobals m) s, ?_, ?_⟩
    · rw [lookup_apply, hs]
      rfl
    · intro k2 w hw
      exact lookup_injectGlobals_of_some _ hw

/-- C9 witness: on a concrete mapping the key sequence is preserved and the
scalar entry `a = 1` is unchanged by promotion. -/
theorem promote_frame_witness :
    ((applyGlobalEnvSettings
        [("a", Value.scalar (1 : Nat)), ("sec", Value.map [("b", Value.scalar 2)])]).map Prod.fst
      = [("a", Value.scalar (1 : Nat)), ("sec", Value.map [("b", Value.scalar 2)])].map Prod.fst) ∧
    lookup (applyGlobalEnvSettings
        [("a", Value.scalar (1 : Nat)), ("sec", Value.map [("b", Value.scalar 2)])]) "a"
      = some (Value.scalar 1) := by
  have h := promote_frame
      [("a", Value.scalar (1 : Nat)), ("sec", Value.map [("b", Value.scalar 2)])]
  exact ⟨h.1, h.2.1 "a" (Value.scalar 1) rfl rfl⟩

/-- C3: Validation-before-default ordering — when a field marked `required`
and carrying a `default` tag is absent from the (promoted) settings,
`Unmarshal` returns a validation error and never returns a defaulted result:
`applyDefaults` runs only on the validation-success branch. -/
theorem validation_before_default {α : Type} (specs : List (FieldSpec α))
    (m : SMap α) (f : FieldSpec α)
    (hmem : f ∈ specs) (hreq : f.required = true)
    (_hdef : f.defaultTag.isSome = true)
    (habsent : lookup (applyGlobalEnvSettings m) f.key = none) :
    (∃ e, Unmarshal specs m = Except.error e) ∧
    ∀ r, Unmarshal specs m ≠ Except.ok r := by
  have h0 : (f, lookup (applyGlobalEnvSettings m) f.key) ∈
      decodeConfig specs (applyGlobalEnvSettings m) :=
    List.mem_map_of_mem _ hmem
  rw [habsent] at h0
  have h2 : (f, (none : Option (Value α))) ∈
      (decodeConfig specs (applyGlobalEnvSettings m)).filter
        (fun p => p.1.required && p.2.isNone) := by
    rw [List.mem_filter]
    exact ⟨h0, by simp [hreq]⟩
  have h3 : (f.name, "required") ∈
      requiredViolations (decodeConfig specs (applyGlobalEnvSettings m)) := by
    unfold requiredViolations
    exact List.mem_map_of_mem _ h2
  have hne : requiredViolations (decodeConfig specs (applyGlobalEnvSettings m)) ≠ [] :=
    List.ne_nil_of_mem h3
  have hval : validateConfig (decodeConfig specs (applyGlobalEnvSettings m))
      = some ("errors: " ++ joinStrings ", "
          ((requiredViolations (decodeConfig specs (applyGlobalEnvSettings m))).map
            (fun v => formatViolation v.1 v.2))) := by
    unfold validateConfig
    rw [if_neg hne]
  refine ⟨⟨"errors: " ++ joinStrings ", "
      ((requiredViolations (decodeConfig specs (applyGlobalEnvSettings m))).map
        (fun v => formatViolation v.1 v.2)), ?_⟩, ?_⟩
  · unfold Unmarshal
    rw [hval]
  · intro r hr
    unfold Unmarshal at hr
    rw [hval] at hr
    simp at hr

/-- C3 witness: one field `F` (key `f`), required with default `9`, absent
from the empty settings: `Unmarshal` fails and never returns a defaulted
structure. -/
theorem validation_before_default_witness :
    (∃ e, Unmarshal [FieldSpec.mk "F" "f" true (some (Value.scalar (9 : Nat)))] []
      = Except.error e) ∧
    Unmarshal [FieldSpec.mk "F" "f" true (some (Value.scalar (9 : Nat)))] []
      ≠ Except.ok [] := by
  have h := validation_before_default
      [FieldSpec.mk "F" "f" true (some (Value.scalar (9 : Nat)))] []
      (FieldSpec.mk "F" "f" true (some (Value.scalar 9)))
      (List.mem_cons_self _ _) rfl rfl rfl
  exact ⟨h.1, h.2 []⟩

/-- C4: Section routing — on settings holding a global `name = X` and a
`server` section holding only `host = h1`,
the pipeline populates `Server.Name` with the promoted global `X` and
`Server.Host` with the local section value `h1`; and in general, whenever the
decode hook routes a section mapping for the `Server` field, that field is
decoded from the section mapping alone. -/
theorem section_routing {α : Type} (x h1 : α) :
    (UnmarshalApp [("name", Value.scalar x),
        ("server", Value.map [("host", Value.scalar h1)])]
      = some { name := some (Value.scalar x),
               server := { host := some (Value.scalar h1),
                           name := some (Value.scalar x) } }) ∧
    ∀ (m s : SMap α) (r : AppT α),
      mapstructureDecodeHook "Server" (Value.map m) = HookResult.routed s →
      decodeApp m = some r → r.server = decodeServer s := by
  constructor
  · rfl
  · intro m s r hroute hdec
    unfold decodeApp at hdec
    rw [hroute] at hdec
    have h := Option.some.inj hdec
    rw [← h]

/-- C4 witness: the scenario at `x = 5`, `h1 = 7`, and one concrete routed
decode. -/
theorem section_routing_witness :
    (UnmarshalApp [("name", Value.scalar (5 : Nat)),
        ("server", Value.map [("host", Value.scalar 7)])]
      = some { name := some (Value.scalar 5),
               server := { host := some (Value.scalar 7),
                           name := some (Value.scalar 5) } }) ∧
    ({ name := (none : Option (Value Nat)),
       server := { host := some (Value.scalar 3), name := none } } : AppT Nat).server
      = decodeServer [("host", Value.scalar 3)] := by
  refine ⟨(section_routing 5 7).1, ?_⟩
  exact (section_routing (5 : Nat) 7).2
    [("server", Value.map [("host", Value.scalar 3)])]
    [("host", Value.scalar 3)]
    { name := none, server := { host := some (Value.scalar 3), name := none } }
    rfl rfl

/-- C6: Section-matcher fallback — when the lower-cased type name is not a
key of the mapping being decoded, the decode hook returns the data unchanged,
and the structured field's own fields are then populated directly from the
enclosing top-level mapping. -/
theorem section_matcher_fallback {α : Type} (tName : String) (m m2 : SMap α)
    (h1 : lookup m (toLowerStr tName) = none)
    (h2 : lookup m2 "server" = none) :
    mapstructureDecodeHook tName (Value.map m)
      = HookResult.passthrough (Value.map m) ∧
    decodeApp m2 = some { name := lookup m2 "name", server := decodeServer m2 } := by
  constructor
  · simp only [mapstructureDecodeHook]
    rw [h1]
  · have hh : mapstructureDecodeHook "Server" (Value.map m2)
        = HookResult.passthrough (Value.map m2) := by
      simp only [mapstructureDecodeHook]
      rw [show toLowerStr "Server" = "server" from rfl, h2]
    unfold decodeApp
    rw [hh]

/-- C6 witness: no `database` section exists, so the hook passes the data
through; no `server` section exists in `m2`, so the `Server` field decodes
from the enclosing mapping. -/
theorem section_matcher_fallback_witness :
    mapstructureDecodeHook "Database" (Value.map [("x", Value.scalar (1 : Nat))])
      = HookResult.passthrough (Value.map [("x", Value.scalar 1)]) ∧
    decodeApp [("name", Value.scalar (2 : Nat))]
      = some { name := lookup [("name", Value.scalar (2 : Nat))] "name",
               server := decodeServer [("name", Value.scalar 2)] } :=
  section_matcher_fallback "Database" _ _ rfl rfl

/-- C7: Validation error format — whenever `Unmarshal` fails validation, the
error text is the fixed "errors: " marker followed by the per-field messages
joined by ", ", and for every violated field (not only the first) the text
contains the fragment consisting of the word field, the quoted field name and
its rule. -/
theorem validation_error_format {α : Type} (specs : List (FieldSpec α))
    (m : SMap α) (e : String) (h : Unmarshal specs m = Except.error e) :
    (∃ rest, e = "errors: " ++ rest) ∧
    e = "errors: " ++ joinStrings ", "
        ((requiredViolations (decodeConfig specs (applyGlobalEnvSettings m))).map
          (fun v => formatViolation v.1 v.2)) ∧
    ∀ v ∈ requiredViolations (decodeConfig specs (applyGlobalEnvSettings m)),
      ∃ pre post, e = pre ++ ("field '" ++ v.1 ++ "' is " ++ v.2) ++ post := by
  unfold Unmarshal at h
  unfold validateConfig at h
  by_cases hne : requiredViolations (decodeConfig specs (applyGlobalEnvSettings m)) = []
  · rw [if_pos hne] at h
    simp at h
  · rw [if_neg hne] at h
    have he : "errors: " ++ joinStrings ", "
        ((requiredViolations (decodeConfig specs (applyGlobalEnvSettings m))).map
          (fun v => formatViolation v.1 v.2)) = e := Except.error.inj h
    refine ⟨⟨_, he.symm⟩, he.symm, ?_⟩
    intro v hv
    have hfmt : formatViolation v.1 v.2 ∈
        (requiredViolations (decodeConfig specs (applyGlobalEnvSettings m))).map
          (fun v => formatViolation v.1 v.2) :=
      List.mem_map_of_mem _ hv
    obtain ⟨pre, post, hpp⟩ := joinStrings_substring ", " _ _ hfmt
    refine ⟨"errors: " ++ pre ++ "validation error: ", post, ?_⟩
    rw [← he, hpp, formatViolation_decomp]
    simp [String.append_assoc]

/-- C7 witness: two required fields `A` and `B` both missing; the single
aggregated message carries the "errors: " marker and the fragment for field
`A` (the fragment for `B` is present as well by the same theorem). -/
theorem validation_error_format_witness :
    (∃ rest,
      ("errors: validation error: field 'A' is required, validation error: field 'B' is required" : String)
        = "errors: " ++ rest) ∧
    (∃ pre post,
      ("errors: validation error: field 'A' is required, validation error: field 'B' is required" : String)
        = pre ++ ("field '" ++ "A" ++ "' is " ++ "required") ++ post) := by
  have h := validation_error_format
      [FieldSpec.mk "A" "a" true (none : Option (Value Nat)),
       FieldSpec.mk "B" "b" true none] []
      "errors: validation error: field 'A' is required, validation error: field 'B' is required"
      rfl
  exact ⟨h.1, h.2.2 ("A", "required") (by decide)⟩

/-- C10 (as stated) is false: on a map whose `server` key holds a scalar, the
hook built for target type `Server` does not succeed — the unchecked type
assertion of `v` to a nested string-keyed map (config.go line 145) fails at
run time, modelled by `HookResult.crash`. -/
theorem decode_hook_unguarded_cast :
    mapstructureDecodeHook "Server"
        (Value.map [("server", Value.scalar (0 : Nat))]) = HookResult.crash := rfl

/-- C10 amended: the decode hook evaluates safely except in exactly one case —
it fails (the unchecked cast to a nested mapping) precisely when the data is a
map that binds the lower-cased target type name to a non-map value. -/
theorem decode_hook_totality {α : Type} (tName : String) (d : Value α) :
    mapstructureDecodeHook tName d = HookResult.crash ↔
      ∃ mp v, d = Value.map mp ∧ lookup mp (toLowerStr tName) = some v ∧
        isMap v = false := by
  constructor
  · intro h
    cases d with
    | scalar a => simp [mapstructureDecodeHook] at h
    | map mp =>
      cases hl : lookup mp (toLowerStr tName) with
      | none => simp [mapstructureDecodeHook, hl] at h
      | some v =>
        cases v with
        | scalar a => exact ⟨mp, Value.scalar a, rfl, hl, rfl⟩
        | map s => simp [mapstructureDecodeHook, hl] at h
  · rintro ⟨mp, v, rfl, hl, hv⟩
    cases v with
    | scalar a => simp [mapstructureDecodeHook, hl]
    | map s => simp [isMap] at hv

/-- C10 witness: the characterisation applied at a concrete scalar-valued
`server` key. -/
theorem decode_hook_totality_witness :
    mapstructureDecodeHook "Server"
        (Value.map [("server", Value.scalar (1 : Nat))]) = HookResult.crash :=
  (decode_hook_totality "Server" _).mpr
    ⟨[("server", Value.scalar 1)], Value.scalar 1, rfl, rfl, rfl⟩

end Config
